import Mathlib

/-!
Shallow embedding of the MycilaConfig typed configuration engine
(src/config/Value.h, Key.h, Result.h, Storage.h, Config.h), with theorems
checking the specification's claims against it.

Modelling conventions:
- C strings are modelled as Lean `String` / `List Char`; the `const char*`
  keyed `std::map`s of the engine compare keys by pointer in C++, which
  coincides with content comparison when callers pass the canonical
  registry name pointer (as all internal call sites do); the model compares
  by content.
- Machine integers are modelled as `Int`/`Nat` with explicit wrap-around
  (`% 2^w`) at the points where the code casts.
- The `float` alternative of the value variant is kept opaque: its payload
  is the accepted numeral text. No claim settled here depends on float
  arithmetic, rounding or float equality semantics.
- Fallible storage operations return `Option`; a failure set in the storage
  state chooses which writes/removals fail, so theorems can quantify over
  storage behaviours allowed by the Storage interface contract.
- Side effects (storage writes, cache updates, callback invocations) are
  reified as an ordered `Step` trace returned by the operations.
-/

namespace Mycila.config

/-- Model of `strcmp(a, b) < 0`: lexicographic byte comparison (names are
ASCII, where byte order and codepoint order agree). -/
def strLtList : List Char → List Char → Bool
  | [], [] => false
  | [], _ :: _ => true
  | _ :: _, [] => false
  | a :: s, b :: t => if a < b then true else if b < a then false else strLtList s t

/-- `strcmp` order on strings. -/
def strLt (a b : String) : Bool := strLtList a.toList b.toList

/-- The alternatives of the `Value` variant in Value.h, in declaration
order (with `MYCILA_CONFIG_USE_LONG_LONG` and `MYCILA_CONFIG_USE_DOUBLE`
at their default value 0): bool, int8, uint8, int16, uint16, int32,
uint32, int, unsigned int, float, Str. -/
inductive Kind where
  | kBool
  | kI8
  | kU8
  | kI16
  | kU16
  | kI32
  | kU32
  | kInt
  | kUInt
  | kFloat
  | kStr
  deriving DecidableEq, Repr

/-- The tagged union Value (Value.h). Signed payloads are `Int`, unsigned
payloads `Nat`; the float payload is the numeral text (kept opaque, see
the file header). Str values are compared by content, as `Str::operator==`
falls back to `strcmp`. -/
inductive Value where
  | vBool (b : Bool)
  | vI8 (n : Int)
  | vU8 (n : Nat)
  | vI16 (n : Int)
  | vU16 (n : Nat)
  | vI32 (n : Int)
  | vU32 (n : Nat)
  | vInt (n : Int)
  | vUInt (n : Nat)
  | vFloat (text : String)
  | vStr (s : String)
  deriving DecidableEq, Repr

/-- The active alternative; two Values have equal `kind` exactly when the
C++ variants have equal `index()`. -/
def Value.kind : Value → Kind
  | .vBool _ => .kBool
  | .vI8 _ => .kI8
  | .vU8 _ => .kU8
  | .vI16 _ => .kI16
  | .vU16 _ => .kU16
  | .vI32 _ => .kI32
  | .vU32 _ => .kU32
  | .vInt _ => .kInt
  | .vUInt _ => .kUInt
  | .vFloat _ => .kFloat
  | .vStr _ => .kStr

/-- MYCILA_CONFIG_VALUE_TRUE (Defines.h, default). -/
def MYCILA_CONFIG_VALUE_TRUE : String := "true"

/-- MYCILA_CONFIG_VALUE_FALSE (Defines.h, default). -/
def MYCILA_CONFIG_VALUE_FALSE : String := "false"

/-- MYCILA_CONFIG_KEY_ENABLE_SUFFIX (Defines.h, default). -/
def MYCILA_CONFIG_KEY_ENABLE_SUFFIX : String := "_enable"

/-- MYCILA_CONFIG_KEY_PASSWORD_SUFFIX (Defines.h, default). -/
def MYCILA_CONFIG_KEY_PASSWORD_SUFFIX : String := "_pwd"

/-- C `sizeof` of a string literal: length plus the terminating NUL. -/
def sizeofLit (s : String) : Nat := s.length + 1

/-- Whitespace recognised by `isspace` in the C locale, skipped by the
`strto*` family. -/
def isSpaceC (c : Char) : Bool :=
  c = ' ' || c = '\t' || c = '\n' || c = Char.ofNat 11 || c = Char.ofNat 12 || c = '\r'

/-- Accumulate a decimal digit run left to right, returning the value and
the number of digits consumed. -/
def parseDigitsAux : List Char → Nat → Nat → Nat × Nat
  | [], acc, n => (acc, n)
  | c :: t, acc, n =>
    if c.isDigit then parseDigitsAux t (acc * 10 + (c.toNat - 48)) (n + 1)
    else (acc, n)

/-- Model of C `strtol(str, &endPtr, 10)` on a 32-bit `long` (the ESP32
target): skip whitespace, optional sign, decimal digits; the result is
clamped to the long range on overflow. Returns the value and the number of
characters consumed; consumed is 0 when no conversion is performed, in
which case `endPtr` stays at the start of the string. -/
def strtolModel (l : List Char) : Int × Nat :=
  let ws := (l.takeWhile isSpaceC).length
  let rest := l.drop ws
  let signLen : Nat :=
    match rest with
    | '-' :: _ => 1
    | '+' :: _ => 1
    | _ => 0
  let neg : Bool :=
    match rest with
    | '-' :: _ => true
    | _ => false
  let (mag, n) := parseDigitsAux (rest.drop signLen) 0 0
  if n = 0 then (0, 0)
  else
    let v : Int := if neg then -(mag : Int) else (mag : Int)
    (max (-(2 : Int) ^ 31) (min v ((2 : Int) ^ 31 - 1)), ws + signLen + n)

/-- Model of C `strtoul(str, &endPtr, 10)` on a 32-bit `unsigned long`:
like `strtol` but the magnitude saturates at `ULONG_MAX` and a leading
minus sign negates in unsigned (modular) arithmetic. -/
def strtoulModel (l : List Char) : Nat × Nat :=
  let ws := (l.takeWhile isSpaceC).length
  let rest := l.drop ws
  let signLen : Nat :=
    match rest with
    | '-' :: _ => 1
    | '+' :: _ => 1
    | _ => 0
  let neg : Bool :=
    match rest with
    | '-' :: _ => true
    | _ => false
  let (mag, n) := parseDigitsAux (rest.drop signLen) 0 0
  if n = 0 then (0, 0)
  else
    let m := min mag (2 ^ 32 - 1)
    (if neg then (2 ^ 32 - m) % 2 ^ 32 else m, ws + signLen + n)

/-- Model of C `strtof(str, &endPtr)` restricted to decimal numerals:
whitespace, optional sign, digits with an optional fractional part, and an
optional exponent. Returns the accepted numeral text (the opaque float
payload of this embedding) and the number of characters consumed. Hex,
infinity and NaN spellings are not modelled; no claim in scope exercises
them. -/
def strtofModel (l : List Char) : Option (String × Nat) :=
  let ws := (l.takeWhile isSpaceC).length
  let rest := l.drop ws
  let signLen : Nat :=
    match rest with
    | '-' :: _ => 1
    | '+' :: _ => 1
    | _ => 0
  let body := rest.drop signLen
  let (_, nInt) := parseDigitsAux body 0 0
  let afterInt := body.drop nInt
  let fracLen : Nat :=
    match afterInt with
    | '.' :: t => 1 + (parseDigitsAux t 0 0).2
    | _ => 0
  if nInt = 0 ∧ fracLen ≤ 1 then none
  else
    let mantLen := nInt + fracLen
    let afterMant := body.drop mantLen
    let expLen : Nat :=
      match afterMant with
      | 'e' :: t =>
        let es : Nat := match t with | '-' :: _ => 1 | '+' :: _ => 1 | _ => 0
        let ed := (parseDigitsAux (t.drop es) 0 0).2
        if ed = 0 then 0 else 1 + es + ed
      | 'E' :: t =>
        let es : Nat := match t with | '-' :: _ => 1 | '+' :: _ => 1 | _ => 0
        let ed := (parseDigitsAux (t.drop es) 0 0).2
        if ed = 0 then 0 else 1 + es + ed
      | _ => 0
    let consumed := ws + signLen + mantLen + expLen
    some ((l.take consumed).asString, consumed)

/-- Two's-complement truncation performed by `static_cast<T>` for a signed
`T` of bit width `w`. -/
def castSigned (w : Nat) (v : Int) : Int :=
  (v + 2 ^ (w - 1)) % 2 ^ w - 2 ^ (w - 1)

/-- Modular truncation performed by `static_cast<T>` for an unsigned `T`
of bit width `w`. -/
def castUnsigned (w : Nat) (v : Nat) : Nat := v % 2 ^ w

/-- Boolean parsing in Value::fromString with
`MYCILA_CONFIG_EXTENDED_BOOL_VALUE_PARSING` at its default value 1: the
canonical true literal, then the extended aliases; anything else is false,
never a parse error. -/
def parseBool (l : List Char) : Bool :=
  l = MYCILA_CONFIG_VALUE_TRUE.toList ||
  l = ("true").toList || l = ("1").toList ||
  l = ("on").toList || l = ("yes").toList || l = ("y").toList

/-- Value::fromString (Value.h): parses `str` into the kind of
`defaultValue`. Numeric kinds require the whole string to be consumed
(`*endPtr == '\0'`); boolean parsing never fails; the string kind always
succeeds by copying. -/
def Value.fromString (str : List Char) (defaultValue : Value) : Option Value :=
  match defaultValue with
  | .vBool _ => some (.vBool (parseBool str))
  | .vI8 _ =>
    let (v, n) := strtolModel str
    if n = str.length then some (.vI8 (castSigned 8 v)) else none
  | .vU8 _ =>
    let (v, n) := strtoulModel str
    if n = str.length then some (.vU8 (castUnsigned 8 v)) else none
  | .vI16 _ =>
    let (v, n) := strtolModel str
    if n = str.length then some (.vI16 (castSigned 16 v)) else none
  | .vU16 _ =>
    let (v, n) := strtoulModel str
    if n = str.length then some (.vU16 (castUnsigned 16 v)) else none
  | .vI32 _ =>
    let (v, n) := strtolModel str
    if n = str.length then some (.vI32 (castSigned 32 v)) else none
  | .vU32 _ =>
    let (v, n) := strtoulModel str
    if n = str.length then some (.vU32 (castUnsigned 32 v)) else none
  | .vInt _ =>
    let (v, n) := strtolModel str
    if n = str.length then some (.vInt (castSigned 32 v)) else none
  | .vUInt _ =>
    let (v, n) := strtoulModel str
    if n = str.length then some (.vUInt (castUnsigned 32 v)) else none
  | .vFloat _ =>
    match strtofModel str with
    | some (t, n) => if n = str.length then some (.vFloat t) else none
    | none => none
  | .vStr _ => some (.vStr str.asString)

/-- A registry entry (Key.h): a name and a default Value. -/
structure Key where
  name : String
  defaultValue : Value
  deriving DecidableEq, Repr

/-- Faithful to Key::isPasswordKey (Key.h): after the length guard
`len < sizeof(SUFFIX) - 1`, the code compares the suffix starting at
`name + len - sizeof(SUFFIX) - 1` (note: NOT `len - (sizeof(SUFFIX) - 1)`)
against the suffix literal. The model uses truncated Nat subtraction for
the offset; in C the pointer is out of bounds (undefined behaviour) when
`len < sizeof(SUFFIX) + 1`, and all in-bounds cases agree with this
model. -/
def isPasswordKeyName (name : String) : Bool :=
  let len := name.length
  if len < sizeofLit MYCILA_CONFIG_KEY_PASSWORD_SUFFIX - 1 then false
  else
    name.toList.drop (len - (sizeofLit MYCILA_CONFIG_KEY_PASSWORD_SUFFIX + 1)) ==
      MYCILA_CONFIG_KEY_PASSWORD_SUFFIX.toList

/-- Faithful to Key::isEnableKey (Key.h); same off-by-two offset as
`isPasswordKeyName`. -/
def isEnableKeyName (name : String) : Bool :=
  let len := name.length
  if len < sizeofLit MYCILA_CONFIG_KEY_ENABLE_SUFFIX - 1 then false
  else
    name.toList.drop (len - (sizeofLit MYCILA_CONFIG_KEY_ENABLE_SUFFIX + 1)) ==
      MYCILA_CONFIG_KEY_ENABLE_SUFFIX.toList

/-- Key::isPasswordKey. -/
def Key.isPasswordKey (k : Key) : Bool := isPasswordKeyName k.name

/-- Key::isEnableKey. -/
def Key.isEnableKey (k : Key) : Bool := isEnableKeyName k.name

/-- The result enumeration (Result.h). -/
inductive Status where
  | PERSISTED
  | DEFAULTED
  | REMOVED
  | ERR_DISABLED
  | ERR_UNKNOWN_KEY
  | ERR_INVALID_TYPE
  | ERR_INVALID_VALUE
  | ERR_FAIL_ON_WRITE
  | ERR_FAIL_ON_REMOVE
  deriving DecidableEq, Repr

/-- Result::isStorageUpdated (Result.h): the storage actually changed. -/
def Status.isStorageUpdated : Status → Bool
  | .PERSISTED => true
  | .REMOVED => true
  | _ => false

/-- Result's `operator bool` (Result.h): the operation succeeded. -/
def Status.isSuccess : Status → Bool
  | .PERSISTED => true
  | .DEFAULTED => true
  | .REMOVED => true
  | _ => false

/-- State of a Storage backend honouring the Storage interface contract
(Storage.h): typed entries; `failWrite`/`failRemove`/`failRemoveAll`
select which operations fail, so theorems quantify over the behaviours an
implementation may exhibit. Per the documented contract, `remove` on an
absent key succeeds, and a typed load only returns a value stored under
that same kind (both backends, NVS and FileSystem, store values typed). -/
structure Storage where
  entries : List (String × Value)
  failWrite : String → Bool
  failRemove : String → Bool
  failRemoveAll : Bool

/-- Insert or overwrite the binding of `n` in an association list. -/
def insertAssoc (m : List (String × Value)) (n : String) (v : Value) :
    List (String × Value) :=
  (n, v) :: m.filter (fun p => !(p.1 == n))

/-- Storage::hasKey. -/
def Storage.hasKey (s : Storage) (key : String) : Bool :=
  (s.entries.find? (fun p => p.1 == key)).isSome

/-- The typed `load*` family (`Config::_load` dispatches on the default
value's kind): returns the stored value only when its kind matches. -/
def Storage.load (s : Storage) (k : Kind) (key : String) : Option Value :=
  match s.entries.find? (fun p => p.1 == key) with
  | some (_, v) => if v.kind = k then some v else none
  | none => none

/-- The typed `store*` family (`Config::_store` dispatches on the value's
kind): `none` models a failed write (storage unchanged). -/
def Storage.store (s : Storage) (key : String) (v : Value) : Option Storage :=
  if s.failWrite key then none
  else some { s with entries := insertAssoc s.entries key v }

/-- Storage::remove; per the contract, removing an absent key succeeds. -/
def Storage.remove (s : Storage) (key : String) : Option Storage :=
  if s.hasKey key then
    if s.failRemove key then none
    else some { s with entries := s.entries.filter (fun p => !(p.1 == key)) }
  else some s

/-- Storage::removeAll; Config::clear ignores its result, so a failing
removeAll leaves the entries in place. -/
def Storage.removeAll (s : Storage) : Storage :=
  if s.failRemoveAll then s else { s with entries := [] }

/-- The reified side effects of an engine operation, in execution order.
The first five constructors record the stages of the `_set` validation
pipeline as they execute; `write` records a successful physical storage
write, `cacheUpdate` a cache mutation, `notify` a change-callback
invocation, `restored` the restore-completed callback. -/
inductive Step where
  | checkUnknown (key : String)
  | checkType (key : String)
  | checkDefault (key : String)
  | checkGlobal (key : String)
  | checkPerKey (key : String)
  | write (key : String) (v : Value)
  | cacheUpdate (key : String) (v : Value)
  | notify (key : String) (v : Value)
  | restored
  deriving DecidableEq, Repr

/-- True for physical-storage-write steps. -/
def Step.isWrite : Step → Bool
  | .write _ _ => true
  | _ => false

/-- The engine state (the private fields of class Config). Callbacks are
reified: `hasChangeCallback`/`hasRestoreCallback` record whether a
callback is registered (its invocations appear in the `Step` trace);
validators are carried as predicates, as in the source. -/
structure Config where
  name : Option String := none
  keys : List Key := []
  cache : List (String × Value) := []
  validators : List (String × (String → Value → Bool)) := []
  globalValidator : Option (String → Value → Bool) := none
  hasChangeCallback : Bool := false
  hasRestoreCallback : Bool := false
  storage : Storage

/-- Config::enabled. -/
def Config.enabled (c : Config) : Bool := c.name.isSome

/-- Config::stored. -/
def Config.stored (c : Config) (key : String) : Bool :=
  c.enabled && c.storage.hasKey key

/-- Functional model of Config::key: `std::lower_bound` over the
name-sorted registry returns the first key whose name is not less than the
probe; the result matches only if its name equals the probe. -/
def lookupKey (keys : List Key) (buffer : String) : Option Key :=
  match keys.find? (fun k => !(strLt k.name buffer)) with
  | some k => if k.name = buffer then some k else none
  | none => none

/-- Config::_get: disabled returns the default; then cache hit; then a
typed load keyed by the default value's kind, cached on success; an absent
load returns the default without caching it. -/
def Config.getK (c : Config) (k : Key) : Value × Config :=
  if c.enabled = false then (k.defaultValue, c)
  else
    match c.cache.find? (fun p => p.1 == k.name) with
    | some (_, v) => (v, c)
    | none =>
      match c.storage.load k.defaultValue.kind k.name with
      | some v => (v, { c with cache := insertAssoc c.cache k.name v })
      | none => (k.defaultValue, c)

/-- Config::get: throws (here `none`) on an unknown key, else `_get`. -/
def Config.get (c : Config) (key : String) : Option (Value × Config) :=
  match lookupKey c.keys key with
  | none => none
  | some k => some (c.getK k)

/-- Result of `_set`: status, new engine state, and the effect trace. -/
structure SetResult where
  status : Status
  cfg : Config
  steps : List Step

/-- The per-key validator registered for `n`, if any
(`_validators.find`). -/
def findValidator (vs : List (String × (String → Value → Bool))) (n : String) :
    Option (String → Value → Bool) :=
  match vs.find? (fun p => p.1 == n) with
  | some (_, f) => some f
  | none => none

/-- Config::_set, with each pipeline stage recorded in the trace as it
executes: disabled guard, unknown-key check, type check,
same-as-default-and-not-persisted short-circuit, global validator, per-key
validator, physical write (recorded only when it succeeds; a failed write
leaves the state unchanged and returns ERR_FAIL_ON_WRITE), cache update,
change notification (fired only when requested and a callback is
registered). -/
def Config.setV (c : Config) (key : String) (value : Value)
    (fireChangeCallback : Bool) : SetResult :=
  if c.enabled = false then ⟨.ERR_DISABLED, c, []⟩
  else
    match lookupKey c.keys key with
    | none => ⟨.ERR_UNKNOWN_KEY, c, [.checkUnknown key]⟩
    | some k =>
      if value.kind ≠ k.defaultValue.kind then
        ⟨.ERR_INVALID_TYPE, c, [.checkUnknown key, .checkType key]⟩
      else
        if c.stored key = false ∧ k.defaultValue = value then
          ⟨.DEFAULTED, c, [.checkUnknown key, .checkType key, .checkDefault key]⟩
        else
          if (match c.globalValidator with
              | some g => !(g key value)
              | none => false) then
            ⟨.ERR_INVALID_VALUE, c,
              [.checkUnknown key, .checkType key, .checkDefault key, .checkGlobal key]⟩
          else
            if (match findValidator c.validators k.name with
                | some f => !(f k.name value)
                | none => false) then
              ⟨.ERR_INVALID_VALUE, c,
                [.checkUnknown key, .checkType key, .checkDefault key, .checkGlobal key,
                 .checkPerKey key]⟩
            else
              match c.storage.store key value with
              | none =>
                ⟨.ERR_FAIL_ON_WRITE, c,
                  [.checkUnknown key, .checkType key, .checkDefault key, .checkGlobal key,
                   .checkPerKey key]⟩
              | some st =>
                ⟨.PERSISTED,
                  { c with storage := st, cache := insertAssoc c.cache key value },
                  [.checkUnknown key, .checkType key, .checkDefault key, .checkGlobal key,
                   .checkPerKey key, .write key value, .cacheUpdate key value] ++
                    (if fireChangeCallback && c.hasChangeCallback then [.notify key value]
                     else [])⟩

/-- Config::unset: disabled guard, unknown-key check, storage removal
(ERR_FAIL_ON_REMOVE on failure), cache eviction, change callback with the
key's default value, REMOVED. -/
def Config.unsetK (c : Config) (key : String) (fireChangeCallback : Bool) :
    Status × Config × List Step :=
  if c.enabled = false then (.ERR_DISABLED, c, [])
  else
    match lookupKey c.keys key with
    | none => (.ERR_UNKNOWN_KEY, c, [])
    | some k =>
      match c.storage.remove key with
      | none => (.ERR_FAIL_ON_REMOVE, c, [])
      | some st =>
        (.REMOVED,
         { c with storage := st, cache := c.cache.filter (fun p => !(p.1 == key)) },
         if fireChangeCallback && c.hasChangeCallback then [.notify key k.defaultValue]
         else [])

/-- Config::clear: removeAll on storage (result ignored) and empty the
cache. -/
def Config.clear (c : Config) : Config :=
  { c with storage := c.storage.removeAll, cache := [] }

/-- Ordered insertion placing the new key after keys of equal name: the
effect of `push_back` followed by `std::sort` by `strcmp` on an already
sorted registry (one valid outcome of the unstable sort; the relative
order of equal names is unspecified in C++). -/
def insertKeySorted : List Key → Key → List Key
  | [], k => [k]
  | h :: t, k => if strLt k.name h.name then k :: h :: t else h :: insertKeySorted t k

/-- Config::configure: appends the key, re-sorts the registry by name,
registers the optional validator, and returns true. The length-limit
failure announced by its doc comment ("false otherwise (e.g. key too
long)") is absent from the code: no length check is performed and the
function never returns false. -/
def Config.configure (c : Config) (key : String) (defaultValue : Value)
    (validator : Option (String → Value → Bool)) : Bool × Config :=
  let c1 := { c with keys := insertKeySorted c.keys ⟨key, defaultValue⟩ }
  let c2 :=
    match validator with
    | some f =>
      { c1 with validators := (key, f) :: c1.validators.filter (fun p => !(p.1 == key)) }
    | none => c1
  (true, c2)

/-- The preload loop in Config::begin: for every registered key, load the
string-form value (`loadString`) and cache it when present. -/
def preloadCache (keys : List Key) (st : Storage) (cache : List (String × Value)) :
    List (String × Value) :=
  keys.foldl
    (fun acc k =>
      match st.load Kind.kStr k.name with
      | some v => insertAssoc acc k.name v
      | none => acc)
    cache

/-- Config::begin: fails (state unchanged) when the storage backend fails
to open (`storageOk` models that outcome); otherwise optionally preloads
the cache and records the name (the engine becomes enabled). -/
def Config.begin (c : Config) (nm : String) (preload : Bool) (storageOk : Bool) :
    Bool × Config :=
  if storageOk = false then (false, c)
  else
    let c1 := if preload then { c with cache := preloadCache c.keys c.storage c.cache } else c
    (true, { c1 with name := some nm })

/-- One iteration of the batch-set loops in the map overload of
Config::set: when the settings map binds this key's name, apply `_set`
and accumulate whether storage was actually updated. -/
def batchStep (settings : List (String × Value)) (fireChangeCallback : Bool)
    (acc : Bool × Config × List Step) (k : Key) : Bool × Config × List Step :=
  match settings.find? (fun p => p.1 == k.name) with
  | some (_, v) =>
    let r := (acc.2.1).setV k.name v fireChangeCallback
    (acc.1 || r.status.isStorageUpdated, r.cfg, acc.2.2 ++ r.steps)
  | none => acc

/-- The map overload of Config::set: a first pass over the registry
applies all entries whose key is not an enable key, a second pass applies
the enable keys; returns whether any entry actually updated storage. -/
def Config.setMap (c : Config) (settings : List (String × Value))
    (fireChangeCallback : Bool) : Bool × Config × List Step :=
  let a1 := (c.keys.filter (fun k => !k.isEnableKey)).foldl
    (batchStep settings fireChangeCallback) (false, c, [])
  (c.keys.filter (fun k => k.isEnableKey)).foldl
    (batchStep settings fireChangeCallback) a1

/-- Model of C `strstr`: index of the first occurrence of `needle` in
`hay` (0 when `needle` is empty). -/
def strstrIdx : List Char → List Char → Option Nat
  | [], needle => if needle.isPrefixOf ([] : List Char) then some 0 else none
  | c :: t, needle =>
    if needle.isPrefixOf (c :: t) then some 0
    else (strstrIdx t needle).map (· + 1)

/-- Model of C `strchr`: index of the first occurrence of a character. -/
def strchrIdx : List Char → Char → Option Nat
  | [], _ => none
  | c :: t, x => if c = x then some 0 else (strchrIdx t x).map (· + 1)

/-- The parsing loop of Config::restore(const char*): for each registered
key, `strstr` locates the first occurrence of the name; if the character
after it is not an equals sign the key is skipped; otherwise the value
text runs to the first CR anywhere in the remaining input, or, when no CR
exists, to the first LF; when neither exists the whole restore fails
(`none`). Each value text is parsed with Value::fromString against the
key's default; any parse failure fails the whole restore. -/
def restoreParse (keys : List Key) (data : List Char) :
    Option (List (String × Value)) :=
  match keys with
  | [] => some []
  | k :: rest =>
    match strstrIdx data k.name.toList with
    | none => restoreParse rest data
    | some i =>
      match data.drop (i + k.name.toList.length) with
      | [] => restoreParse rest data
      | a :: tail =>
        if a = '=' then
          match
            (match strchrIdx tail '\r' with
             | some e => some e
             | none => strchrIdx tail '\n') with
          | none => none
          | some e =>
            match Value.fromString (tail.take e) k.defaultValue with
            | some v => (restoreParse rest data).map (fun s => (k.name, v) :: s)
            | none => none
        else restoreParse rest data

/-- Config::restore(map): batch set with notifications suppressed; the
restore-completed callback fires only when at least one entry actually
changed storage. -/
def Config.restoreMap (c : Config) (settings : List (String × Value)) :
    Bool × Config × List Step :=
  let r := c.setMap settings false
  if r.1 then
    (true, r.2.1, r.2.2 ++ (if c.hasRestoreCallback then [Step.restored] else []))
  else (false, r.2.1, r.2.2)

/-- Config::restore(const char*): parse, then delegate to the map restore;
a parse failure returns false with the engine state untouched. -/
def Config.restoreText (c : Config) (data : String) : Bool × Config × List Step :=
  match restoreParse c.keys data.toList with
  | none => (false, c, [])
  | some settings => c.restoreMap settings

/-- Modelled from claim C6's words, for comparison with `restoreParse`: a
key participates when its name occurs in the text immediately followed by
an equals sign (first such occurrence); its value text runs to the first
CR or LF after the equals sign, or to the end of the input; the text is
parsed with Value::fromString against the key's default and any parse
failure fails the whole restore. -/
def restoreClaimedC6 (keys : List Key) (data : List Char) :
    Option (List (String × Value)) :=
  match keys with
  | [] => some []
  | k :: rest =>
    let nm := k.name.toList
    match (List.range (data.length + 1)).find?
        (fun i => nm.isPrefixOf (data.drop i) && ((data.drop (i + nm.length)).take 1 == ['='])) with
    | none => restoreClaimedC6 rest data
    | some i =>
      let tail := data.drop (i + nm.length + 1)
      let text := tail.takeWhile (fun c => !(c = '\r' || c = '\n'))
      match Value.fromString text k.defaultValue with
      | some v => (restoreClaimedC6 rest data).map (fun s => (k.name, v) :: s)
      | none => none

/-- The amended description of the restore parsing loop, stated with
position-set search and index search instead of the `strstr`/`strchr`
recursions of `restoreParse`: a key participates only when the first
occurrence of its name is immediately followed by an equals sign; the
value text runs to the first CR anywhere in the remaining input, or, when
no CR exists, to the first LF; when neither exists the whole restore
fails. -/
def restoreAmendedSpec (keys : List Key) (data : List Char) :
    Option (List (String × Value)) :=
  match keys with
  | [] => some []
  | k :: rest =>
    match (List.range (data.length + 1)).find?
        (fun i => k.name.toList.isPrefixOf (data.drop i)) with
    | none => restoreAmendedSpec rest data
    | some i =>
      if (data.drop (i + k.name.toList.length)).take 1 == ['='] then
        match
          (if (data.drop (i + k.name.toList.length + 1)).contains '\r' then
            some (((data.drop (i + k.name.toList.length + 1)).takeWhile
              (fun c => !(c = '\r'))).length)
          else if (data.drop (i + k.name.toList.length + 1)).contains '\n' then
            some (((data.drop (i + k.name.toList.length + 1)).takeWhile
              (fun c => !(c = '\n'))).length)
          else none) with
        | none => none
        | some e =>
          match Value.fromString ((data.drop (i + k.name.toList.length + 1)).take e)
              k.defaultValue with
          | some v => (restoreAmendedSpec rest data).map (fun s => (k.name, v) :: s)
          | none => none
      else restoreAmendedSpec rest data

/-- The engine operations quantified over by the cache-typing invariant
claim. `opBegin` carries whether the storage backend opens successfully;
`opConfigure` carries the optional per-key validator. -/
inductive Op where
  | opConfigure (key : String) (defaultValue : Value)
      (validator : Option (String → Value → Bool))
  | opBegin (nm : String) (preload : Bool) (storageOk : Bool)
  | opGet (key : String)
  | opSet (key : String) (v : Value) (fire : Bool)
  | opUnset (key : String) (fire : Bool)
  | opRestore (data : String)
  | opClear

/-- The engine state after running one operation. -/
def applyOp (op : Op) (c : Config) : Config :=
  match op with
  | .opConfigure key dv vld => (c.configure key dv vld).2
  | .opBegin nm preload ok => (c.begin nm preload ok).2
  | .opGet key =>
    match c.get key with
    | some r => r.2
    | none => c
  | .opSet key v fire => (c.setV key v fire).cfg
  | .opUnset key fire => (c.unsetK key fire).2.1
  | .opRestore data => (c.restoreText data).2.1
  | .opClear => c.clear

/-- One cache entry respects the declared kind of the key its name
resolves to. -/
def entryKindOk (keys : List Key) (p : String × Value) : Bool :=
  match lookupKey keys p.1 with
  | some k => p.2.kind == k.defaultValue.kind
  | none => true

/-- The cache-typing invariant of claim C5: every cached value for a name
that resolves to a registered key has the kind of that key's declared
default. -/
def cacheKindOk (c : Config) : Bool :=
  c.cache.all (entryKindOk c.keys)

/-- Well-formedness of states produced through the API: every cached name
resolves to a registered key. -/
def cacheRegistered (c : Config) : Bool :=
  c.cache.all (fun p => (lookupKey c.keys p.1).isSome)

/-- Registry sortedness maintained by configure (`strcmp` order, with
keys of equal name in any order). -/
def KeysSorted (keys : List Key) : Prop :=
  keys.Pairwise (fun a b => strLt b.name a.name = false)

/-- Storage precondition for begin-with-preload: the string-form load
yields nothing for names resolving to a non-string key (true after
`migrateFromString`, since both backends store and load values typed). -/
def StorageStringsTyped (c : Config) : Prop :=
  ∀ n k, lookupKey c.keys n = some k → k.defaultValue.kind ≠ Kind.kStr →
    c.storage.load Kind.kStr n = none

/-- The full `_set` pipeline in claimed order; the notification appears
only when it would fire. -/
def canonicalSetSteps (key : String) (v : Value) (fired : Bool) : List Step :=
  [Step.checkUnknown key, Step.checkType key, Step.checkDefault key,
   Step.checkGlobal key, Step.checkPerKey key, Step.write key v,
   Step.cacheUpdate key v] ++ (if fired then [Step.notify key v] else [])

/-- A storage state with no entries and no failures. -/
def emptyStorage : Storage :=
  { entries := [], failWrite := fun _ => false, failRemove := fun _ => false,
    failRemoveAll := false }

/-! Concrete engine states used by the claim theorems and witnesses. -/

/-- A registry with one enable-suffixed key and one plain key, an enabled
engine, and a storage that accepts every write. -/
def cfgC4 : Config :=
  { name := some "ns", keys := [⟨"a_enable", Value.vBool false⟩, ⟨"b", Value.vI32 0⟩],
    storage := emptyStorage }

/-- An unopened engine with no keys. -/
def cfgC8 : Config := { storage := emptyStorage }

/-- An unopened engine with an int32 key whose name carries a string-kind
value in storage (the legacy situation `migrateFromString` exists for). -/
def cfgC5 : Config :=
  { keys := [⟨"k", Value.vI32 0⟩],
    storage := { entries := [("k", Value.vStr "x")], failWrite := fun _ => false,
                 failRemove := fun _ => false, failRemoveAll := false } }

/-- An enabled engine with one int32 key whose storage fails every
write. -/
def cfg1 : Config :=
  { name := some "ns", keys := [⟨"k", Value.vI32 0⟩], hasChangeCallback := true,
    storage := { entries := [], failWrite := fun _ => true, failRemove := fun _ => false,
                 failRemoveAll := false } }

/-- An enabled engine with one int32 key and an empty, reliable
storage. -/
def cfg2 : Config :=
  { name := some "ns", keys := [⟨"k", Value.vI32 0⟩], storage := emptyStorage }

/-- An enabled engine with one int32 key, a change callback, and an empty,
reliable storage. -/
def cfg10 : Config :=
  { name := some "ns", keys := [⟨"k", Value.vI32 0⟩], hasChangeCallback := true,
    storage := emptyStorage }

/-- A one-key string registry and a one-key int32 registry for the
restore counterexamples. -/
def keys6 : List Key := [⟨"k", Value.vStr ""⟩]

/-- See `keys6`. -/
def keys6b : List Key := [⟨"k", Value.vI32 0⟩]

/-- The NVS key-name length limit of the ESP32 platform
(NVS_KEY_NAME_MAX_SIZE - 1 = 15 characters): the limit Config::configure
is documented to enforce. -/
def nvsKeyNameMaxLen : Nat := 15

/-- Claim C3 (code bug): the reserved-suffix classifiers never match. For
the spec's own example names, "wifi_pwd" does end with the password suffix
and "wifi_enable" does end with the enable suffix, yet Key::isPasswordKey
and Key::isEnableKey return false, because Key.h reads the suffix at
offset `len - sizeof(SUFFIX) - 1` instead of `len - (sizeof(SUFFIX) - 1)`
(the legacy MycilaConfig.cpp revision uses the correct `len - 4` /
`len - 7` offsets). -/
theorem suffix_classification_mismatch :
    Key.isPasswordKey ⟨"wifi_pwd", Value.vStr ""⟩ = false ∧
    MYCILA_CONFIG_KEY_PASSWORD_SUFFIX.toList.isSuffixOf ("wifi_pwd".toList) = true ∧
    Key.isEnableKey ⟨"wifi_enable", Value.vBool false⟩ = false ∧
    MYCILA_CONFIG_KEY_ENABLE_SUFFIX.toList.isSuffixOf ("wifi_enable".toList) = true := by
  decide

/-- Claim C4 (code bug): in a batch containing the plain key "b" and the
enable-suffixed key "a_enable", the engine performs the storage write for
"a_enable" strictly before the write for "b": since Key::isEnableKey never
matches (claim C3), both keys fall into the first (non-enable) pass and
are written in registry order. The claim requires every plain-key write to
precede every enable-key write. -/
theorem batch_write_order_at_failing_input :
    ((cfgC4.setMap [("a_enable", Value.vBool true), ("b", Value.vI32 1)] true).2.2.filter
        Step.isWrite =
      [Step.write "a_enable" (Value.vBool true), Step.write "b" (Value.vI32 1)]) ∧
    (cfgC4.setMap [("a_enable", Value.vBool true), ("b", Value.vI32 1)] true).1 = true ∧
    MYCILA_CONFIG_KEY_ENABLE_SUFFIX.toList.isSuffixOf ("a_enable".toList) = true ∧
    MYCILA_CONFIG_KEY_ENABLE_SUFFIX.toList.isSuffixOf ("b".toList) = false := by
  decide

/-- Claim C8 (code bug): configure performs no key-name length check: for
a 31-character name, far over the 15-character NVS limit its doc comment
refers to, it still registers the key and returns true, where the claim
(and the comment "false otherwise (e.g. key too long)") require false and
no registration. -/
theorem configure_ignores_length_limit :
    (cfgC8.configure "a_very_long_key_name_over_limit" (Value.vI32 0) none).1 = true ∧
    ((cfgC8.configure "a_very_long_key_name_over_limit" (Value.vI32 0) none).2.keys.map
        Key.name =
      ["a_very_long_key_name_over_limit"]) ∧
    nvsKeyNameMaxLen < ("a_very_long_key_name_over_limit").length := by
  decide

/-- Claim C5 counterexample: a well-formed state (sorted registry, cache
names registered, cache typing invariant holding) on which begin with
preload breaks the invariant: the preload loop loads the string-form value
stored under the int32 key "k" and caches it, leaving a string-kind value
cached for a key whose declared default is int32. -/
theorem preload_breaks_cache_kind_inv :
    KeysSorted cfgC5.keys ∧ cacheRegistered cfgC5 = true ∧ cacheKindOk cfgC5 = true ∧
    cacheKindOk (applyOp (Op.opBegin "ns" true true) cfgC5) = false := by
  refine ⟨?_, by decide, by decide, by decide⟩
  unfold KeysSorted
  decide

/-- Claim C6 counterexample, three divergences between the code's restore
parsing and the claim's description: (1) on "k=v" (no trailing newline)
the claim reads the value "v" up to end of input and the string parse
succeeds, but the code fails the whole restore because neither CR nor LF
occurs; (2) on "kx\nk=1\n" the name occurs followed by an equals sign, but
the code inspects only the first occurrence (followed by an x) and skips
the key; (3) on "k=1\nz\r" the claim reads "1" up to the first LF, but the
code prefers the first CR anywhere in the remaining input, reads "1\nz",
and fails the whole restore on the numeric parse. -/
theorem restore_claim_counterexample :
    restoreParse keys6 ("k=v".toList) = none ∧
    restoreClaimedC6 keys6 ("k=v".toList) = some [("k", Value.vStr "v")] ∧
    restoreParse keys6b ("kx\nk=1\n".toList) = some [] ∧
    restoreClaimedC6 keys6b ("kx\nk=1\n".toList) = some [("k", Value.vI32 1)] ∧
    restoreParse keys6b ("k=1\nz\r".toList) = none ∧
    restoreClaimedC6 keys6b ("k=1\nz\r".toList) = some [("k", Value.vI32 1)] := by
  decide

/-- A key returned by Config::key has the probed name. -/
theorem lookupKey_name_eq {keys : List Key} {b : String} {k : Key}
    (h : lookupKey keys b = some k) : k.name = b := by
  unfold lookupKey at h
  cases hf : keys.find? (fun k => !(strLt k.name b)) with
  | none => rw [hf] at h; exact absurd h (by simp)
  | some k0 =>
    rw [hf] at h
    by_cases he : k0.name = b
    · have h2 : some k0 = some k := by simpa [he] using h
      cases h2
      exact he
    · simp [he] at h

/-- Claim C1: for an enabled engine, a registered key and a value of
matching kind, the `_set` trace is always an in-order fragment of the
canonical pipeline (unknown-key check, type check,
same-as-default-and-not-persisted short-circuit, global validator, per-key
validator, physical write, cache update, change notification); on
PERSISTED the full pipeline ran in that order; and whenever `_set` returns
ERR_FAIL_ON_WRITE the engine state (cache included) is unchanged and no
change notification occurs. -/
theorem set_pipeline_order (c : Config) (key : String) (k : Key) (v : Value) (fire : Bool)
    (hen : c.enabled = true) (hk : lookupKey c.keys key = some k)
    (hkind : v.kind = k.defaultValue.kind) :
    ((c.setV key v fire).steps).Sublist
        (canonicalSetSteps key v (fire && c.hasChangeCallback)) ∧
    ((c.setV key v fire).status = Status.PERSISTED →
      (c.setV key v fire).steps = canonicalSetSteps key v (fire && c.hasChangeCallback)) ∧
    ((c.setV key v fire).status = Status.ERR_FAIL_ON_WRITE →
      (c.setV key v fire).cfg = c ∧
        ∀ n w, Step.notify n w ∉ (c.setV key v fire).steps) := by
  unfold Config.setV
  rw [hen, hk]
  simp only [Bool.true_eq_false, if_false, hkind, ne_eq, not_true_eq_false]
  split
  · exact ⟨by simp [canonicalSetSteps], by simp, by simp⟩
  · split
    · exact ⟨by simp [canonicalSetSteps], by simp, by simp⟩
    · split
      · exact ⟨by simp [canonicalSetSteps], by simp, by simp⟩
      · cases hst : c.storage.store key v with
        | none =>
          refine ⟨by simp [canonicalSetSteps], by simp, fun _ => ⟨rfl, ?_⟩⟩
          intro n w
          simp
        | some st =>
          refine ⟨by simp [canonicalSetSteps], fun _ => rfl, by simp⟩

/-- Claim C1 witness: concrete engine `cfg1` whose storage fails every
write; the hypotheses hold and the theorem applies. -/
theorem set_pipeline_order_witness :
    cfg1.enabled = true ∧ lookupKey cfg1.keys "k" = some ⟨"k", Value.vI32 0⟩ ∧
    (Value.vI32 5).kind = (Value.vI32 0 : Value).kind ∧
    (((cfg1.setV "k" (Value.vI32 5) true).steps).Sublist
        (canonicalSetSteps "k" (Value.vI32 5) (true && cfg1.hasChangeCallback)) ∧
      ((cfg1.setV "k" (Value.vI32 5) true).status = Status.PERSISTED →
        (cfg1.setV "k" (Value.vI32 5) true).steps =
          canonicalSetSteps "k" (Value.vI32 5) (true && cfg1.hasChangeCallback)) ∧
      ((cfg1.setV "k" (Value.vI32 5) true).status = Status.ERR_FAIL_ON_WRITE →
        (cfg1.setV "k" (Value.vI32 5) true).cfg = cfg1 ∧
          ∀ n w, Step.notify n w ∉ (cfg1.setV "k" (Value.vI32 5) true).steps)) :=
  ⟨by decide, by decide, by decide,
    set_pipeline_order cfg1 "k" ⟨"k", Value.vI32 0⟩ (Value.vI32 5) true (by decide)
      (by decide) (by decide)⟩

/-- Claim C2: for an enabled engine, a registered key and a value of
matching kind, if `_set` returns PERSISTED then reading the key back
returns the just-set value (from the cache, without further state change)
and `stored` reports true. -/
theorem set_persisted_get_stored (c : Config) (key : String) (k : Key) (v : Value)
    (fire : Bool) (hen : c.enabled = true) (hk : lookupKey c.keys key = some k)
    (hkind : v.kind = k.defaultValue.kind)
    (hres : (c.setV key v fire).status = Status.PERSISTED) :
    (c.setV key v fire).cfg.get key = some (v, (c.setV key v fire).cfg) ∧
    (c.setV key v fire).cfg.stored key = true := by
  have hname : k.name = key := lookupKey_name_eq hk
  revert hres
  unfold Config.setV
  rw [hen, hk]
  simp only [Bool.true_eq_false, if_false, hkind, ne_eq, not_true_eq_false]
  split
  · intro h; exact absurd h (by simp)
  · split
    · intro h; exact absurd h (by simp)
    · split
      · intro h; exact absurd h (by simp)
      · cases hst : c.storage.store key v with
        | none => intro h; exact absurd h (by simp)
        | some st =>
          intro _
          have hentries : st = { c.storage with entries := insertAssoc c.storage.entries key v } := by
            unfold Storage.store at hst
            by_cases hfw : c.storage.failWrite key = true
            · rw [if_pos hfw] at hst; exact absurd hst (by simp)
            · rw [if_neg hfw] at hst
              cases hst
              rfl
          subst hentries
          constructor
          · have hen2 : ({ c with
                storage := { c.storage with entries := insertAssoc c.storage.entries key v },
                cache := insertAssoc c.cache key v } : Config).enabled = true := hen
            have hk2 : lookupKey ({ c with
                storage := { c.storage with entries := insertAssoc c.storage.entries key v },
                cache := insertAssoc c.cache key v } : Config).keys key = some k := hk
            unfold Config.get
            rw [hk2]
            unfold Config.getK
            rw [hen2]
            simp [insertAssoc, hname, List.find?]
          · unfold Config.stored Storage.hasKey
            have hen2 : ({ c with
                storage := { c.storage with entries := insertAssoc c.storage.entries key v },
                cache := insertAssoc c.cache key v } : Config).enabled = true := hen
            rw [hen2]
            simp [insertAssoc, List.find?]

/-- Claim C2 witness: on `cfg2`, setting "k" to 5 returns PERSISTED and
the theorem applies. -/
theorem set_persisted_get_stored_witness :
    cfg2.enabled = true ∧ lookupKey cfg2.keys "k" = some ⟨"k", Value.vI32 0⟩ ∧
    (Value.vI32 5).kind = (Value.vI32 0 : Value).kind ∧
    (cfg2.setV "k" (Value.vI32 5) true).status = Status.PERSISTED ∧
    ((cfg2.setV "k" (Value.vI32 5) true).cfg.get "k" =
        some (Value.vI32 5, (cfg2.setV "k" (Value.vI32 5) true).cfg) ∧
      (cfg2.setV "k" (Value.vI32 5) true).cfg.stored "k" = true) :=
  ⟨by decide, by decide, by decide, by decide,
    set_persisted_get_stored cfg2 "k" ⟨"k", Value.vI32 0⟩ (Value.vI32 5) true (by decide)
      (by decide) (by decide) (by decide)⟩

/-- Claim C7: for an enabled engine and a registered key with no cache
entry and no value in storage, get returns the key's declared default and
the engine state (cache included) is unchanged: the default is never
inserted into the cache. -/
theorem get_absent_returns_default_uncached (c : Config) (key : String) (k : Key)
    (hen : c.enabled = true) (hk : lookupKey c.keys key = some k)
    (hcache : c.cache.find? (fun p => p.1 == k.name) = none)
    (hstore : c.storage.hasKey k.name = false) :
    c.get key = some (k.defaultValue, c) := by
  have hload : c.storage.load k.defaultValue.kind k.name = none := by
    unfold Storage.load
    unfold Storage.hasKey at hstore
    cases hf : c.storage.entries.find? (fun p => p.1 == k.name) with
    | none => rfl
    | some p => rw [hf] at hstore; exact absurd hstore (by simp)
  unfold Config.get
  rw [hk]
  unfold Config.getK
  simp [hen, hcache, hload]

/-- Claim C7 witness: on `cfg2` (empty cache, empty storage), getting "k"
returns the int32 default 0 and leaves the state unchanged. -/
theorem get_absent_returns_default_uncached_witness :
    cfg2.enabled = true ∧ lookupKey cfg2.keys "k" = some ⟨"k", Value.vI32 0⟩ ∧
    cfg2.cache.find? (fun p => p.1 == "k") = none ∧
    cfg2.storage.hasKey "k" = false ∧
    cfg2.get "k" = some (Value.vI32 0, cfg2) :=
  ⟨by decide, by decide, by decide, by decide,
    get_absent_returns_default_uncached cfg2 "k" ⟨"k", Value.vI32 0⟩ (by decide) (by decide)
      (by decide) (by decide)⟩

/-- Claim C10: for an enabled engine with a change callback registered,
unsetting a registered key that is absent from storage returns REMOVED
(not an error), because the Storage contract makes remove succeed on an
absent key, and the change callback fires with the key's default value. -/
theorem unset_absent_key_removed (c : Config) (key : String) (k : Key)
    (hen : c.enabled = true) (hk : lookupKey c.keys key = some k)
    (habs : c.storage.hasKey key = false) (hcb : c.hasChangeCallback = true) :
    (c.unsetK key true).1 = Status.REMOVED ∧
    (c.unsetK key true).2.2 = [Step.notify key k.defaultValue] := by
  have hrm : c.storage.remove key = some c.storage := by
    unfold Storage.remove
    rw [habs]
    simp
  unfold Config.unsetK
  rw [hen, hk, hrm]
  simp [hcb]

/-- Claim C10 witness: on `cfg10` (change callback registered, empty
storage), unsetting the never-stored key "k" returns REMOVED and notifies
with the default value 0. -/
theorem unset_absent_key_removed_witness :
    cfg10.enabled = true ∧ lookupKey cfg10.keys "k" = some ⟨"k", Value.vI32 0⟩ ∧
    cfg10.storage.hasKey "k" = false ∧ cfg10.hasChangeCallback = true ∧
    ((cfg10.unsetK "k" true).1 = Status.REMOVED ∧
      (cfg10.unsetK "k" true).2.2 = [Step.notify "k" (Value.vI32 0)]) :=
  ⟨by decide, by decide, by decide, by decide,
    unset_absent_key_removed cfg10 "k" ⟨"k", Value.vI32 0⟩ (by decide) (by decide) (by decide)
      (by decide)⟩

/-! Order facts for the `strcmp` model, used by the registry lemmas. -/

/-- `strcmp` order is irreflexive. -/
theorem strLtList_irrefl : ∀ l : List Char, strLtList l l = false
  | [] => rfl
  | c :: t => by
    unfold strLtList
    simp [lt_irrefl, strLtList_irrefl t]

/-- `strcmp` order is transitive. -/
theorem strLtList_trans : ∀ {a b c : List Char},
    strLtList a b = true → strLtList b c = true → strLtList a c = true
  | [], [], _, hab, _ => by simp [strLtList] at hab
  | [], _ :: _, [], _, hbc => by simp [strLtList] at hbc
  | [], _ :: _, _ :: _, _, _ => rfl
  | _ :: _, [], _, hab, _ => by simp [strLtList] at hab
  | _ :: _, _ :: _, [], _, hbc => by simp [strLtList] at hbc
  | x :: s, y :: t, z :: u, hab, hbc => by
    unfold strLtList at hab hbc ⊢
    by_cases hxy : x < y
    · by_cases hyz : y < z
      · simp [lt_trans hxy hyz]
      · by_cases hzy : z < y
        · simp [hyz, hzy] at hbc
        · have hyzeq : y = z := le_antisymm (not_lt.mp hzy) (not_lt.mp hyz)
          subst hyzeq
          simp [hxy]
    · by_cases hyx : y < x
      · simp [hxy, hyx] at hab
      · have hxyeq : x = y := le_antisymm (not_lt.mp hyx) (not_lt.mp hxy)
        subst hxyeq
        simp [lt_irrefl] at hab
        by_cases hyz : x < z
        · simp [hyz]
        · by_cases hzy : z < x
          · simp [hyz, hzy] at hbc
          · have hyzeq : x = z := le_antisymm (not_lt.mp hzy) (not_lt.mp hyz)
            subst hyzeq
            simp [lt_irrefl] at hbc ⊢
            exact strLtList_trans hab hbc

/-- Lists incomparable under `strcmp` order are equal. -/
theorem strLtList_eq : ∀ {a b : List Char},
    strLtList a b = false → strLtList b a = false → a = b
  | [], [], _, _ => rfl
  | [], _ :: _, hab, _ => by simp [strLtList] at hab
  | _ :: _, [], _, hba => by simp [strLtList] at hba
  | x :: s, y :: t, hab, hba => by
    unfold strLtList at hab hba
    by_cases hxy : x < y
    · simp [hxy] at hab
    · by_cases hyx : y < x
      · simp [hyx, lt_asymm hyx] at hba
      · have hxyeq : x = y := le_antisymm (not_lt.mp hyx) (not_lt.mp hxy)
        subst hxyeq
        simp [lt_irrefl] at hab hba
        rw [strLtList_eq hab hba]

/-- `strLt` is irreflexive. -/
theorem strLt_irrefl (a : String) : strLt a a = false := strLtList_irrefl a.toList

/-- `strLt` is transitive. -/
theorem strLt_trans {a b c : String} (hab : strLt a b = true) (hbc : strLt b c = true) :
    strLt a c = true := strLtList_trans hab hbc

/-- Strings incomparable under `strLt` are equal. -/
theorem strLt_eq {a b : String} (hab : strLt a b = false) (hba : strLt b a = false) :
    a = b := by
  apply String.ext
  exact strLtList_eq hab hba

/-- `strLt` is asymmetric. -/
theorem strLt_asymm {a b : String} (hab : strLt a b = true) : strLt b a = false := by
  by_contra h
  have hba : strLt b a = true := by
    cases hb : strLt b a with
    | false => exact absurd hb h
    | true => rfl
  have := strLt_trans hab hba
  rw [strLt_irrefl] at this
  exact absurd this (by simp)

/-- A string not below and not equal to another is strictly above it. -/
theorem strLt_of_not_of_ne {a b : String} (hab : strLt a b = false) (hne : a ≠ b) :
    strLt b a = true := by
  cases hba : strLt b a with
  | true => rfl
  | false => exact absurd (strLt_eq hab hba) hne

/-- Unfolding of Config::key over a cons cell. -/
theorem lookupKey_cons (h : Key) (t : List Key) (n : String) :
    lookupKey (h :: t) n =
      if strLt h.name n = true then lookupKey t n
      else if h.name = n then some h else none := by
  unfold lookupKey
  by_cases hlt : strLt h.name n = true
  · simp [List.find?, hlt]
  · simp [List.find?, hlt]

/-- Inserting a key into a sorted registry does not change the lookup
result for any name that already resolves: the new key lands after all
keys of equal name, so `lower_bound` keeps finding the old entry. -/
theorem lookupKey_insert_stable : ∀ {l : List Key}, KeysSorted l → ∀ (k0 : Key) (n : String),
    (lookupKey l n).isSome = true →
    lookupKey (insertKeySorted l k0) n = lookupKey l n := by
  intro l
  induction l with
  | nil =>
    intro _ k0 n hsome
    simp [lookupKey, List.find?] at hsome
  | cons hd t ih =>
    intro hs k0 n hsome
    unfold insertKeySorted
    by_cases hins : strLt k0.name hd.name = true
    · rw [if_pos hins]
      rw [lookupKey_cons k0 (hd :: t) n]
      by_cases h1 : strLt k0.name n = true
      · rw [if_pos h1]
      · rw [if_neg h1]
        have h1f : strLt k0.name n = false := by
          cases hb : strLt k0.name n with
          | true => exact absurd hb h1
          | false => rfl
        have hlt : strLt n hd.name = true := by
          by_cases h2 : k0.name = n
          · rw [← h2]; exact hins
          · exact strLt_trans (strLt_of_not_of_ne h1f h2) hins
        have hhd : strLt hd.name n = false := strLt_asymm hlt
        have hne : hd.name ≠ n := by
          intro he
          rw [he] at hlt
          rw [strLt_irrefl] at hlt
          exact absurd hlt (by simp)
        exfalso
        rw [lookupKey_cons hd t n, hhd] at hsome
        simp [hne] at hsome
    · rw [if_neg hins]
      rw [lookupKey_cons hd (insertKeySorted t k0) n, lookupKey_cons hd t n]
      by_cases h1 : strLt hd.name n = true
      · rw [if_pos h1, if_pos h1]
        have hts : KeysSorted t := (List.pairwise_cons.mp hs).2
        have hsome2 : (lookupKey t n).isSome = true := by
          rw [lookupKey_cons hd t n, if_pos h1] at hsome
          exact hsome
        exact ih hts k0 n hsome2
      · rw [if_neg h1, if_neg h1]

/-- Membership in an ordered insertion. -/
theorem mem_insertKeySorted : ∀ {l : List Key} {k0 b : Key},
    b ∈ insertKeySorted l k0 → b = k0 ∨ b ∈ l := by
  intro l
  induction l with
  | nil =>
    intro k0 b hb
    simp [insertKeySorted] at hb
    exact Or.inl hb
  | cons x xs ih =>
    intro k0 b hb
    unfold insertKeySorted at hb
    by_cases hx : strLt k0.name x.name = true
    · rw [if_pos hx] at hb
      rcases List.mem_cons.mp hb with rfl | hm2
      · exact Or.inl rfl
      · exact Or.inr hm2
    · rw [if_neg hx] at hb
      rcases List.mem_cons.mp hb with rfl | hm2
      · exact Or.inr (List.mem_cons_self _ _)
      · rcases ih hm2 with h | h
        · exact Or.inl h
        · exact Or.inr (List.mem_cons_of_mem _ h)

/-- `insertKeySorted` preserves registry sortedness. -/
theorem insertKeySorted_sorted : ∀ {l : List Key}, KeysSorted l → ∀ (k0 : Key),
    KeysSorted (insertKeySorted l k0) := by
  intro l
  induction l with
  | nil => intro _ k0; simp [insertKeySorted, KeysSorted]
  | cons hd t ih =>
    intro hs k0
    have hpc := List.pairwise_cons.mp hs
    unfold insertKeySorted
    by_cases hins : strLt k0.name hd.name = true
    · rw [if_pos hins]
      apply List.pairwise_cons.mpr
      refine ⟨?_, hs⟩
      intro b hb
      rcases List.mem_cons.mp hb with rfl | hbt
      · exact strLt_asymm hins
      · have hhb : strLt b.name hd.name = false := hpc.1 b hbt
        cases hbk : strLt b.name k0.name with
        | false => rfl
        | true =>
          have h2 := strLt_trans hbk hins
          rw [hhb] at h2
          exact absurd h2 (by simp)
    · rw [if_neg hins]
      apply List.pairwise_cons.mpr
      refine ⟨?_, ih hpc.2 k0⟩
      intro b hb
      rcases mem_insertKeySorted hb with rfl | hbt
      · cases hbk : strLt b.name hd.name with
        | false => rfl
        | true => exact absurd hbk hins
      · exact hpc.1 b hbt

/-- A typed load only returns values of the requested kind. -/
theorem load_kind {s : Storage} {kd : Kind} {n : String} {v : Value}
    (h : s.load kd n = some v) : v.kind = kd := by
  unfold Storage.load at h
  cases hf : s.entries.find? (fun p => p.1 == n) with
  | none => rw [hf] at h; exact absurd h (by simp)
  | some p =>
    rw [hf] at h
    by_cases hk : p.2.kind = kd
    · have h2 : some p.2 = some v := by simpa [hk] using h
      cases h2
      exact hk
    · simp [hk] at h

/-- `List.all` is preserved by `insertAssoc` when the inserted pair
satisfies the predicate. -/
theorem all_insertAssoc {pred : String × Value → Bool} {m : List (String × Value)}
    {n : String} {v : Value} (hm : m.all pred = true) (hv : pred (n, v) = true) :
    (insertAssoc m n v).all pred = true := by
  unfold insertAssoc
  rw [List.all_eq_true] at hm ⊢
  intro p hp
  rcases List.mem_cons.mp hp with rfl | hp2
  · exact hv
  · exact hm p (List.mem_of_mem_filter hp2)

/-- `List.all` is preserved by `List.filter`. -/
theorem all_filter {pred q : String × Value → Bool} {m : List (String × Value)}
    (hm : m.all pred = true) : (m.filter q).all pred = true := by
  rw [List.all_eq_true] at hm ⊢
  intro p hp
  exact hm p (List.mem_of_mem_filter hp)

/-- `_set` preserves the cache-typing invariant: the only cache mutation
is guarded by the unknown-key and type checks. -/
theorem setV_preserves_cacheKindOk (c : Config) (key : String) (v : Value) (fire : Bool)
    (h : cacheKindOk c = true) : cacheKindOk (c.setV key v fire).cfg = true := by
  unfold Config.setV
  split
  · exact h
  · split
    · exact h
    · rename_i k hlook
      split
      · exact h
      · rename_i hkindne
        have hkind : v.kind = k.defaultValue.kind := not_ne_iff.mp hkindne
        split
        · exact h
        · split
          · exact h
          · split
            · exact h
            · split
              · exact h
              · unfold cacheKindOk at h ⊢
                exact all_insertAssoc h (by unfold entryKindOk; rw [hlook]; simp [hkind])

/-- `_get` preserves the cache-typing invariant: the cache is only filled
from a load typed by the looked-up key's declared kind. -/
theorem getK_preserves_cacheKindOk (c : Config) (key : String) (k : Key)
    (hlook : lookupKey c.keys key = some k) (h : cacheKindOk c = true) :
    cacheKindOk (c.getK k).2 = true := by
  have hname : k.name = key := lookupKey_name_eq hlook
  unfold Config.getK
  split
  · exact h
  · split
    · exact h
    · cases hl : c.storage.load k.defaultValue.kind k.name with
      | none => exact h
      | some v =>
        have hkind : v.kind = k.defaultValue.kind := load_kind hl
        unfold cacheKindOk at h ⊢
        apply all_insertAssoc h
        unfold entryKindOk
        rw [hname, hlook]
        simp [hkind]

/-- The batch-set fold preserves the cache-typing invariant. -/
theorem foldl_batchStep_preserves_cacheKindOk (settings : List (String × Value))
    (fire : Bool) : ∀ (ks : List Key) (acc : Bool × Config × List Step),
    cacheKindOk acc.2.1 = true →
    cacheKindOk ((ks.foldl (batchStep settings fire) acc)).2.1 = true := by
  intro ks
  induction ks with
  | nil => intro acc h; exact h
  | cons k rest ih =>
    intro acc h
    rw [List.foldl_cons]
    apply ih
    unfold batchStep
    cases settings.find? (fun p => p.1 == k.name) with
    | none => exact h
    | some p => exact setV_preserves_cacheKindOk acc.2.1 k.name p.2 fire h

/-- The map overload of set preserves the cache-typing invariant. -/
theorem setMap_preserves_cacheKindOk (c : Config) (settings : List (String × Value))
    (fire : Bool) (h : cacheKindOk c = true) :
    cacheKindOk (c.setMap settings fire).2.1 = true := by
  unfold Config.setMap
  apply foldl_batchStep_preserves_cacheKindOk
  apply foldl_batchStep_preserves_cacheKindOk
  exact h

/-- The preload loop preserves the cache-typing invariant provided
string-form loads only succeed for names resolving to string-kind keys. -/
theorem preload_preserves_cacheKindOk (keys : List Key) (st : Storage) :
    ∀ (ks : List Key) (cache : List (String × Value)),
    (∀ n k, lookupKey keys n = some k → k.defaultValue.kind ≠ Kind.kStr →
        st.load Kind.kStr n = none) →
    cache.all (entryKindOk keys) = true →
    (ks.foldl
        (fun acc k =>
          match st.load Kind.kStr k.name with
          | some v => insertAssoc acc k.name v
          | none => acc)
        cache).all (entryKindOk keys) = true := by
  intro ks
  induction ks with
  | nil => intro cache _ h; exact h
  | cons k rest ih =>
    intro cache hty h
    rw [List.foldl_cons]
    apply ih _ hty
    cases hl : st.load Kind.kStr k.name with
    | none => exact h
    | some v =>
      apply all_insertAssoc h
      unfold entryKindOk
      cases hlook : lookupKey keys k.name with
      | none => rfl
      | some kf =>
        by_cases hkf : kf.defaultValue.kind = Kind.kStr
        · simp [load_kind hl, hkf]
        · rw [hty k.name kf hlook hkf] at hl
          exact absurd hl (by simp)

/-- configure preserves the cache-typing invariant on well-formed states:
the registry insertion does not change the lookup result of any cached
name. -/
theorem configure_preserves_cacheKindOk (c : Config) (key : String) (dv : Value)
    (vld : Option (String → Value → Bool)) (hs : KeysSorted c.keys)
    (hreg : cacheRegistered c = true) (h : cacheKindOk c = true) :
    cacheKindOk (c.configure key dv vld).2 = true := by
  unfold cacheRegistered at hreg
  unfold cacheKindOk at h
  rw [List.all_eq_true] at hreg h
  have hmain : c.cache.all (entryKindOk (insertKeySorted c.keys ⟨key, dv⟩)) = true := by
    rw [List.all_eq_true]
    intro p hp
    have hstable := lookupKey_insert_stable hs ⟨key, dv⟩ p.1 (hreg p hp)
    unfold entryKindOk
    rw [hstable]
    have h2 := h p hp
    unfold entryKindOk at h2
    exact h2
  unfold Config.configure
  cases vld with
  | none => exact hmain
  | some f => exact hmain

/-- Claim C5, amended: on well-formed engine states (sorted registry,
every cached name registered — as all states produced through the API
are), every operation preserves the cache-typing invariant; for begin with
preload this additionally requires that the string-form load succeeds only
for names resolving to string-kind keys (the preload loop caches
`loadString` results for every key, so a string-kind value stored under a
non-string key — the legacy layout `migrateFromString` exists to clean
up — would be cached as-is, see the counterexample). -/
theorem cache_kind_invariant_preserved (op : Op) (c : Config)
    (hsort : KeysSorted c.keys) (hreg : cacheRegistered c = true)
    (hinv : cacheKindOk c = true)
    (hpre : ∀ nm ok, op = Op.opBegin nm true ok → StorageStringsTyped c) :
    cacheKindOk (applyOp op c) = true := by
  cases op with
  | opConfigure key dv vld =>
    exact configure_preserves_cacheKindOk c key dv vld hsort hreg hinv
  | opBegin nm preload ok =>
    simp only [applyOp, Config.begin]
    by_cases hok : ok = false
    · rw [if_pos hok]
      exact hinv
    · rw [if_neg hok]
      cases preload with
      | false => exact hinv
      | true =>
        have hty : StorageStringsTyped c := hpre nm ok rfl
        exact preload_preserves_cacheKindOk c.keys c.storage c.keys c.cache hty hinv
  | opGet key =>
    simp only [applyOp, Config.get]
    cases hlook : lookupKey c.keys key with
    | none => exact hinv
    | some k => exact getK_preserves_cacheKindOk c key k hlook hinv
  | opSet key v fire => exact setV_preserves_cacheKindOk c key v fire hinv
  | opUnset key fire =>
    simp only [applyOp, Config.unsetK]
    split
    · exact hinv
    · split
      · exact hinv
      · cases c.storage.remove key with
        | none => exact hinv
        | some st =>
          unfold cacheKindOk at hinv ⊢
          exact all_filter hinv
  | opRestore data =>
    simp only [applyOp, Config.restoreText]
    split
    · exact hinv
    · rename_i settings heq
      simp only [Config.restoreMap]
      split
      · exact setMap_preserves_cacheKindOk c settings false hinv
      · exact setMap_preserves_cacheKindOk c settings false hinv
  | opClear =>
    simp only [applyOp, Config.clear, cacheKindOk]
    simp

/-- Claim C5 witness: the theorem applied to a set operation on the
well-formed state `cfg2`. -/
theorem cache_kind_invariant_preserved_witness :
    KeysSorted cfg2.keys ∧ cacheRegistered cfg2 = true ∧ cacheKindOk cfg2 = true ∧
    cacheKindOk (applyOp (Op.opSet "k" (Value.vI32 7) true) cfg2) = true :=
  ⟨by unfold KeysSorted; decide, by decide, by decide,
    cache_kind_invariant_preserved (Op.opSet "k" (Value.vI32 7) true) cfg2
      (by unfold KeysSorted; decide) (by decide) (by decide)
      (fun _ _ h => Op.noConfusion h)⟩

/-- `strstr` finds the least position where the needle is a prefix. -/
theorem strstrIdx_eq_find : ∀ (hay needle : List Char),
    strstrIdx hay needle =
      (List.range (hay.length + 1)).find? (fun i => needle.isPrefixOf (hay.drop i)) := by
  intro hay
  induction hay with
  | nil =>
    intro needle
    cases needle with
    | nil => simp [strstrIdx, List.range_succ, List.find?]
    | cons a as => simp [strstrIdx, List.range_succ, List.find?, List.isPrefixOf]
  | cons c t ih =>
    intro needle
    rw [List.range_succ_eq_map]
    by_cases hp : needle.isPrefixOf (c :: t) = true
    · simp [strstrIdx, hp, List.find?]
    · have hpf : needle.isPrefixOf (c :: t) = false := by
        cases hb : needle.isPrefixOf (c :: t) with
        | true => exact absurd hb hp
        | false => rfl
      simp only [strstrIdx, hpf, Bool.false_eq_true, if_false, List.find?, List.drop_zero]
      rw [List.find?_map]
      rw [ih needle]
      congr 1

/-- `strchr` as containment plus a `takeWhile` prefix length. -/
theorem strchrIdx_eq_contains (x : Char) : ∀ (l : List Char),
    strchrIdx l x =
      if l.contains x then some ((l.takeWhile (fun c => !(c = x))).length) else none := by
  intro l
  induction l with
  | nil => rfl
  | cons c t ih =>
    by_cases hc : c = x
    · subst hc
      simp [strchrIdx, List.takeWhile]
    · simp only [strchrIdx, hc, if_false, ih]
      by_cases ht : t.contains x = true
      · simp [List.contains_cons, ht, hc, List.takeWhile, Ne.symm hc]
      · have htf : t.contains x = false := by
          cases hb : t.contains x with
          | true => exact absurd hb ht
          | false => rfl
        simp [List.contains_cons, htf, hc, Ne.symm hc]

/-- The restore parsing loop coincides with the amended description. -/
theorem restoreParse_eq_amended : ∀ (keys : List Key) (data : List Char),
    restoreParse keys data = restoreAmendedSpec keys data := by
  intro keys
  induction keys with
  | nil => intro data; rfl
  | cons k rest ih =>
    intro data
    unfold restoreParse restoreAmendedSpec
    rw [strstrIdx_eq_find data k.name.toList]
    cases hf : (List.range (data.length + 1)).find?
        (fun i => k.name.toList.isPrefixOf (data.drop i)) with
    | none => exact ih data
    | some i =>
      simp only [hf]
      cases hd : data.drop (i + k.name.toList.length) with
      | nil =>
        simp only [hd]
        simp [ih data]
      | cons a tail =>
        simp only [hd]
        have htail : data.drop (i + k.name.toList.length + 1) = tail := by
          have h2 : (data.drop (i + k.name.toList.length)).drop 1 =
              data.drop (i + k.name.toList.length + 1) := by
            rw [List.drop_drop]
          rw [← h2, hd, List.drop_succ_cons, List.drop_zero]
        rw [htail]
        by_cases ha : a = '='
        · subst ha
          rw [strchrIdx_eq_contains '\r' tail, strchrIdx_eq_contains '\n' tail]
          by_cases hr : '\r' ∈ tail
          · simp [hr, ih data]
          · by_cases hn : '\n' ∈ tail
            · simp [hr, hn, ih data]
            · simp [hr, hn]
        · have hne : ((a :: tail).take 1 == ['=']) = false := by
            simp [List.take, ha]
          simp [ha, hne, ih data]

/-- `_set` changes the engine state only when it reports a storage
update. -/
theorem setV_cfg_eq_of_not_updated (c : Config) (key : String) (v : Value) (fire : Bool) :
    (c.setV key v fire).status.isStorageUpdated = false → (c.setV key v fire).cfg = c := by
  unfold Config.setV
  split
  · intro _; rfl
  · split
    · intro _; rfl
    · split
      · intro _; rfl
      · split
        · intro _; rfl
        · split
          · intro _; rfl
          · split
            · intro _; rfl
            · split
              · intro _; rfl
              · intro h
                exact absurd h (by simp [Status.isStorageUpdated])

/-- If the batch-set fold reports no storage update, the engine state is
the one it started from (and the accumulator already reported none). -/
theorem foldl_batchStep_false (settings : List (String × Value)) (fire : Bool) :
    ∀ (ks : List Key) (acc : Bool × Config × List Step),
    (ks.foldl (batchStep settings fire) acc).1 = false →
    (ks.foldl (batchStep settings fire) acc).2.1 = acc.2.1 ∧ acc.1 = false := by
  intro ks
  induction ks with
  | nil => intro acc h; exact ⟨rfl, h⟩
  | cons k rest ih =>
    intro acc h
    rw [List.foldl_cons] at h ⊢
    obtain ⟨h1, h2⟩ := ih (batchStep settings fire acc k) h
    cases hf : settings.find? (fun p => p.1 == k.name) with
    | none =>
      simp only [batchStep, hf] at h1 h2 ⊢
      exact ⟨h1, h2⟩
    | some p =>
      obtain ⟨pn, pv⟩ := p
      simp only [batchStep, hf] at h1 h2 ⊢
      rw [Bool.or_eq_false_iff] at h2
      obtain ⟨ha, hu⟩ := h2
      have hcfg := setV_cfg_eq_of_not_updated acc.2.1 k.name pv fire hu
      refine ⟨?_, ha⟩
      rw [h1, hcfg]

/-- If the map overload of set returns false, the engine state is
unchanged. -/
theorem setMap_false_unchanged (c : Config) (settings : List (String × Value))
    (fire : Bool) (h : (c.setMap settings fire).1 = false) :
    (c.setMap settings fire).2.1 = c := by
  unfold Config.setMap at h ⊢
  obtain ⟨h1, h2⟩ := foldl_batchStep_false settings fire _ _ h
  obtain ⟨h3, _⟩ := foldl_batchStep_false settings fire _ _ h2
  rw [h1, h3]

/-- If restore(const char*) returns false — a failed parse or no detected
change — the engine state (storage and cache) is unchanged. -/
theorem restoreText_false_unchanged (c : Config) (data : String) :
    (c.restoreText data).1 = false → (c.restoreText data).2.1 = c := by
  unfold Config.restoreText
  split
  · intro _; rfl
  · rename_i settings heq
    simp only [Config.restoreMap]
    split
    · intro h
      exact absurd h (by simp)
    · rename_i hup
      intro _
      exact setMap_false_unchanged c settings false (by simpa using hup)

/-- Claim C6, amended: the restore parsing loop behaves as the amended
description states (a key participates only when the first occurrence of
its name is immediately followed by an equals sign; the value text runs to
the first CR anywhere in the remaining input, else to the first LF; with
neither present the whole restore fails; any Value::fromString failure
fails the whole restore), and whenever restore returns false the engine
state is unchanged — no setting is applied. -/
theorem restore_amended_characterization (c : Config) (data : String) :
    restoreParse c.keys data.toList = restoreAmendedSpec c.keys data.toList ∧
    ((c.restoreText data).1 = false → (c.restoreText data).2.1 = c) :=
  ⟨restoreParse_eq_amended c.keys data.toList, restoreText_false_unchanged c data⟩

/-- Claim C6 witness: applied to `cfg2` and the terminator-less input
"k=v", whose parse fails, so restore returns false and the state is
unchanged. -/
theorem restore_amended_characterization_witness :
    (cfg2.restoreText "k=v").1 = false ∧ (cfg2.restoreText "k=v").2.1 = cfg2 :=
  ⟨by decide, (restore_amended_characterization cfg2 "k=v").2 (by decide)⟩

end Mycila.config
